import Mathlib

/-!
# Verification of the Expense Tracker and Budget Analyzer pipeline

Shallow embedding of `project.py`: CSV-row parsing (`parse_transactions`),
keyword categorization (`categorize_transactions`), monthly aggregation
(`monthly_summary`) and budget advice (`recommend_budget`).

Modelling conventions:
* Python `float` amounts are modelled as exact rationals (`ℚ`); decimal
  literals such as `0.2` are the exact rationals they denote.
* A CSV row produced by `csv.DictReader` is an association list from header
  name to cell text; `row.get(k)` is association lookup returning `Option`.
* Python dicts (insertion ordered) are association lists with distinct keys;
  `defaultdict` accumulation is an insert-or-update operation.
* Exceptions are modelled by `Except`; `None` is `Option.none`.
* `float(text)` is modelled on plain decimal notation (optional sign, digits,
  at most one decimal point); exponents, `inf`/`nan`, underscores and
  surrounding whitespace are outside the modelled fragment.
-/

deriving instance DecidableEq for Except

namespace ExpenseTracker

/-- A calendar date as produced by `datetime.date`. -/
structure Date where
  year : Nat
  month : Nat
  day : Nat
deriving DecidableEq, Repr

/-- A transaction record (the Python dict flowing through the pipeline).
Fields are optional because the Python code accesses them with `dict.get`. -/
structure Txn where
  date : Option Date := none
  description : Option String := none
  amount : Option ℚ := none
  category : Option String := none
deriving DecidableEq, Repr

/-- A CSV data row as produced by `csv.DictReader`: header name ↦ cell text. -/
abbrev Row := List (String × String)

/-- Errors raised by the parser (`ValueError` at project.py:43 for dates,
a numeric `ValueError` escaping project.py:49 for amounts). -/
inductive Err where
  | dateFormat (raw : String)
  | amountFormat (raw : String)
deriving DecidableEq, Repr

/-! ## Python primitives -/

/-- Association lookup, modelling `row.get(k)` on a `csv.DictReader` row. -/
def rget (row : Row) (k : String) : Option String :=
  match row with
  | [] => none
  | (k', v) :: rest => if k' = k then some v else rget rest k

/-- Python `a or b` where `a`, `b` are `str`-or-`None`: the empty string and
`None` are falsy. -/
def pyOr2 (a b : Option String) : Option String :=
  match a with
  | none => b
  | some s => if s = "" then b else some s

/-- Python `a or dflt` with a string default, as in `... or ""` / `... or "0"`. -/
def pyOrD (a : Option String) (dflt : String) : String :=
  match a with
  | none => dflt
  | some s => if s = "" then dflt else s

/-- Python `str.strip()`: remove leading and trailing whitespace. -/
def pyStrip (s : String) : String :=
  String.mk (((s.data.dropWhile Char.isWhitespace).reverse.dropWhile
      Char.isWhitespace).reverse)

/-- Python `str.lower()` (modelled character-wise). -/
def pyLower (s : String) : String :=
  String.mk (s.data.map Char.toLower)

/-- Rendering of an optional string inside an f-string: `None` prints as
`"None"`, a string prints as itself. -/
def fstr (a : Option String) : String :=
  match a with
  | none => "None"
  | some s => s

/-! ## Digit and number-text utilities -/

/-- Numeric value of a run of ASCII digit characters, most significant first
(the value a `\x7bd\x7d`-style regex group gets converted to). -/
def digitsValC (l : List Char) : Nat :=
  l.foldl (fun acc c => acc * 10 + (c.toNat - 48)) 0

/-- All characters are ASCII digits. -/
def allDigits (l : List Char) : Bool :=
  l.all Char.isDigit

/-- Split a character list on a separator character (like `str.split(sep)`
restricted to single-character separators). Never returns `[]`. -/
def splitOnChar (sep : Char) : List Char → List (List Char)
  | [] => [[]]
  | c :: rest =>
    if c = sep then [] :: splitOnChar sep rest
    else
      match splitOnChar sep rest with
      | [] => [[c]]
      | p :: ps => (c :: p) :: ps

/-! ## Date parsing (`datetime.strptime` / `datetime.fromisoformat`) -/

/-- Gregorian leap-year test used by `datetime`. -/
def isLeap (y : Nat) : Bool :=
  (y % 4 = 0 && y % 100 ≠ 0) || y % 400 = 0

/-- Number of days in a month, as `datetime.date` validates. -/
def daysInMonth (y m : Nat) : Nat :=
  if m = 2 then (if isLeap y then 29 else 28)
  else if m = 4 ∨ m = 6 ∨ m = 9 ∨ m = 11 then 30
  else 31

/-- `datetime.date(y, m, d)` construction: validates ranges
(`datetime` years are 1..9999). -/
def mkValidDate (y m d : Nat) : Option Date :=
  if 1 ≤ y ∧ y ≤ 9999 ∧ 1 ≤ m ∧ m ≤ 12 ∧ 1 ≤ d ∧ d ≤ daysInMonth y m then
    some ⟨y, m, d⟩
  else none

/-- A `%Y` field: exactly four digits (CPython `_strptime` uses a
four-digit group for `%Y`). -/
def fieldY (l : List Char) : Bool :=
  allDigits l && l.length = 4

/-- A `%m` or `%d` field: one or two digits (zero-padding optional);
the value range is checked by `mkValidDate`. -/
def fieldMD (l : List Char) : Bool :=
  allDigits l && 1 ≤ l.length && l.length ≤ 2

/-- `datetime.strptime(s, "%Y-%m-%d").date()` as an `Option`. -/
def strptimeYMD (s : String) : Option Date :=
  match splitOnChar '-' s.data with
  | [y, m, d] =>
    if fieldY y && fieldMD m && fieldMD d then
      mkValidDate (digitsValC y) (digitsValC m) (digitsValC d)
    else none
  | _ => none

/-- `datetime.strptime(s, "%d-%m-%Y").date()` as an `Option`. -/
def strptimeDMY (s : String) : Option Date :=
  match splitOnChar '-' s.data with
  | [d, m, y] =>
    if fieldMD d && fieldMD m && fieldY y then
      mkValidDate (digitsValC y) (digitsValC m) (digitsValC d)
    else none
  | _ => none

/-- `datetime.strptime(s, "%m-%d-%Y").date()` as an `Option`. -/
def strptimeMDY (s : String) : Option Date :=
  match splitOnChar '-' s.data with
  | [m, d, y] =>
    if fieldMD m && fieldMD d && fieldY y then
      mkValidDate (digitsValC y) (digitsValC m) (digitsValC d)
    else none
  | _ => none

/-- `datetime.fromisoformat(s).date()`, modelled on the strict
`YYYY-MM-DD` date form (four-, two- and two-digit zero-padded fields). -/
def fromisoformat (s : String) : Option Date :=
  match splitOnChar '-' s.data with
  | [y, m, d] =>
    if (allDigits y && y.length = 4) && (allDigits m && m.length = 2) &&
        (allDigits d && d.length = 2) then
      mkValidDate (digitsValC y) (digitsValC m) (digitsValC d)
    else none
  | _ => none

/-- The loop at project.py:31-37: try the three fixed formats in order.
When `raw_date` is `None`, `raw_date.strip()` raises an `AttributeError`
inside the `try`, which the bare `except` catches — every attempt fails. -/
def tryFormats (raw_date : Option String) : Option Date :=
  match raw_date with
  | none => none
  | some s =>
    match strptimeYMD (pyStrip s) with
    | some d => some d
    | none =>
      match strptimeDMY (pyStrip s) with
      | some d => some d
      | none => strptimeMDY (pyStrip s)

/-- Lines 39-43: the ISO fallback and the `ValueError` carrying the raw
(unstripped) date text rendered by the f-string. A `None` date again fails
inside the `try` and reaches the `raise`. -/
def parse_date (raw_date : Option String) : Except Err Date :=
  match tryFormats raw_date with
  | some d => Except.ok d
  | none =>
    match raw_date with
    | some s =>
      match fromisoformat (pyStrip s) with
      | some d => Except.ok d
      | none => Except.error (Err.dateFormat (fstr raw_date))
    | none => Except.error (Err.dateFormat (fstr raw_date))

/-! ## Amount parsing (`float`, lines 45-49) -/

/-- The digits-and-one-dot core of `float(text)` after sign removal. -/
def pyFloatCore (l : List Char) : Option ℚ :=
  match splitOnChar '.' l with
  | [ip] =>
    if allDigits ip && !ip.isEmpty then some ((digitsValC ip : ℚ)) else none
  | [ip, fp] =>
    if allDigits ip && allDigits fp && !(ip.isEmpty && fp.isEmpty) then
      some (mkRat (digitsValC ip * 10 ^ fp.length + digitsValC fp)
        (10 ^ fp.length))
    else none
  | _ => none

/-- `float(text)` on the plain decimal fragment (optional sign, digits,
at most one decimal point). -/
def pyFloat (s : String) : Option ℚ :=
  match s.data with
  | [] => none
  | c :: rest =>
    if c = '-' then (pyFloatCore rest).map (fun v => -v)
    else if c = '+' then pyFloatCore rest
    else pyFloatCore (c :: rest)

/-- `amt_raw.replace(",", "")`. -/
def stripCommas (s : String) : String :=
  String.mk (s.data.filter (fun c => c ≠ ','))

/-- Lines 46-49: `float(amt_raw)`, retried on the comma-stripped text if the
direct parse fails; `none` models the second `ValueError` propagating. -/
def parse_amount (amt_raw : String) : Option ℚ :=
  match pyFloat amt_raw with
  | some v => some v
  | none => pyFloat (stripCommas amt_raw)

/-! ## The row loop of `parse_transactions` (lines 23-51) -/

/-- Processing of one (non-empty) CSV row. -/
def parseRow (row : Row) : Except Err Txn :=
  let raw_date := pyOr2 (rget row "date") (rget row "Date")
  let desc := pyStrip (pyOrD (pyOr2 (rget row "description")
      (rget row "Description")) "")
  let amt_raw := pyOrD (pyOr2 (rget row "amount") (rget row "Amount")) "0"
  match parse_date raw_date with
  | Except.error e => Except.error e
  | Except.ok date_obj =>
    match parse_amount amt_raw with
    | none => Except.error (Err.amountFormat amt_raw)
    | some amount =>
      Except.ok { date := some date_obj, description := some desc,
                  amount := some amount, category := none }

/-- The whole reader loop: empty rows are skipped (`if not row: continue`);
the first failing row aborts the call with its exception, so no partial
list of transactions is ever produced. -/
def parseRows : List Row → Except Err (List Txn)
  | [] => Except.ok []
  | row :: rest =>
    if row = [] then parseRows rest
    else
      match parseRow row with
      | Except.error e => Except.error e
      | Except.ok t =>
        match parseRows rest with
        | Except.error e => Except.error e
        | Except.ok ts => Except.ok (t :: ts)

/-- The CSV source handed to `parse_transactions`: a file path (the parser
opens a handle itself) or an already-open stream.  Either way the rows the
`csv.DictReader` would yield are carried explicitly. -/
inductive CsvSource where
  | path (rows : List Row)
  | stream (rows : List Row)
deriving DecidableEq, Repr

/-- `parse_transactions` (lines 9-55).  The second component records whether
`f.close()` ran.  The close at lines 53-54 sits on the normal return path
only: an exception raised inside the loop propagates before reaching it, so
on the error path no close happens. -/
def parse_transactions (src : CsvSource) : Except Err (List Txn) × Bool :=
  let close_after := match src with | CsvSource.path _ => true
                                    | CsvSource.stream _ => false
  let rows := match src with | CsvSource.path r => r | CsvSource.stream r => r
  match parseRows rows with
  | Except.ok out => (Except.ok out, close_after)
  | Except.error e => (Except.error e, false)

/-! ## Categorizer (`categorize_transactions`, lines 58-92) -/

/-- The built-in rule table (lines 64-79); list order is dict insertion
order, which is the iteration order of the matching loop. -/
def default_rules : List (String × String) :=
  [("starbucks", "Coffee"), ("coffee", "Coffee"),
   ("uber", "Transport"), ("lyft", "Transport"),
   ("walmart", "Groceries"), ("supermarket", "Groceries"),
   ("salary", "Income"), ("payroll", "Income"),
   ("rent", "Housing"), ("mortgage", "Housing"),
   ("subscriptions", "Subscriptions"), ("netflix", "Subscriptions"),
   ("amazon", "Shopping"), ("grocery", "Groceries")]

/-- Boolean check that `n` is a leading segment of `h`. -/
def leadCheck : List Char → List Char → Bool
  | [], _ => true
  | _ :: _, [] => false
  | a :: as, b :: bs => if a = b then leadCheck as bs else false

/-- Python `kw in desc`: substring containment on characters. -/
def containsSub (n : List Char) : List Char → Bool
  | [] => n.isEmpty
  | c :: t => leadCheck n (c :: t) || containsSub n t

/-- The description the matcher sees: `(t.get("description") or "").lower()`. -/
def descKey (t : Txn) : String :=
  pyLower (pyOrD t.description "")

/-- The matching loop (lines 84-88): `cat` starts as the accumulator value
and the first matching keyword's category wins via `break`. -/
def matchLoop (desc : String) (cat : String) : List (String × String) → String
  | [] => cat
  | (kw, c) :: rest =>
    if containsSub kw.data desc.data then c else matchLoop desc cat rest

/-- `categorize_transactions` (lines 58-92): copy each transaction and add
the category chosen by the matching loop (default `"Uncategorized"`). -/
def categorize_transactions (txns : List Txn)
    (rules : List (String × String) := default_rules) : List Txn :=
  txns.map (fun t =>
    { t with category := some (matchLoop (descKey t) "Uncategorized" rules) })

/-! ## Aggregator (`monthly_summary`, lines 95-123) -/

/-- One month's summary record. -/
structure MonthData where
  total : ℚ
  count : Nat
  by_category : List (String × ℚ)
deriving DecidableEq, Repr

/-- The freshly created summary value (line 98). -/
def emptyMD : MonthData := { total := 0, count := 0, by_category := [] }

/-- `f"\x7bdate.year:04d\x7d-\x7bdate.month:02d\x7d"`: zero-padding of a
number to a minimum width. -/
def zpad (w : Nat) (n : Nat) : String :=
  String.mk (List.replicate (w - (toString n).length) '0') ++ toString n

/-- The month key of a dated transaction. -/
def monthKey (d : Date) : String :=
  zpad 4 d.year ++ "-" ++ zpad 2 d.month

/-- Lines 102-106: grouping key, `"unknown"` for an absent date. -/
def keyOf (t : Txn) : String :=
  match t.date with
  | none => "unknown"
  | some d => monthKey d

/-- Line 108: `float(t.get("amount", 0.0))`. -/
def amtOf (t : Txn) : ℚ := t.amount.getD 0

/-- Line 109: `t.get("category", "Uncategorized")`. -/
def catOf (t : Txn) : String := t.category.getD "Uncategorized"

/-- `summary[key]["by_category"][cat] += amt` on a `defaultdict(float)`:
update in place, or append with the float default `0.0 + amt`. -/
def upsertCat : List (String × ℚ) → String → ℚ → List (String × ℚ)
  | [], c, amt => [(c, amt)]
  | (c', v) :: rest, c, amt =>
    if c' = c then (c', v + amt) :: rest else (c', v) :: upsertCat rest c amt

/-- Lines 111-113 applied to one month's record. -/
def accTxn (d : MonthData) (t : Txn) : MonthData :=
  { total := d.total + amtOf t,
    count := d.count + 1,
    by_category := upsertCat d.by_category (catOf t) (amtOf t) }

/-- `summary[key]` on the outer `defaultdict`: update the month in place or
create it (insertion order preserved, as in a Python dict). -/
def upsertMonth : List (String × MonthData) → String → Txn →
    List (String × MonthData)
  | [], k, t => [(k, accTxn emptyMD t)]
  | (k', d) :: rest, k, t =>
    if k' = k then (k', accTxn d t) :: rest
    else (k', d) :: upsertMonth rest k t

/-- `monthly_summary` (lines 95-123).  The final conversion of the
`defaultdict`s to plain dicts (lines 116-122) preserves keys, order and
values, so it is the identity in this model. -/
def monthly_summary (txns : List Txn) : List (String × MonthData) :=
  txns.foldl (fun s t => upsertMonth s (keyOf t) t) []

/-- Association-list lookup (reading `out[k]` of the produced dict). -/
def alookup (l : List (String × MonthData)) (k : String) : Option MonthData :=
  match l with
  | [] => none
  | (k', d) :: rest => if k' = k then some d else alookup rest k

/-! ## Advisor (`recommend_budget`, lines 126-165) -/

/-- Python `f"\x7bx:.2f\x7d"` modelled on exact rationals: round to a whole
number of cents — `⌊100x + 1/2⌋`, written on the numerator and denominator
of the reduced fraction — and print with two decimals. -/
def fmt2 (x : ℚ) : String :=
  let cents : ℤ := Int.fdiv (200 * x.num + x.den) (2 * x.den)
  let n := cents.natAbs
  (if cents < 0 then "-" else "") ++ toString (n / 100) ++ "." ++
    zpad 2 (n % 100)

/-- Python string `<=`: lexicographic comparison by code point, on the
character lists. -/
def lexLeB : List Char → List Char → Bool
  | [], _ => true
  | _ :: _, [] => false
  | a :: as, b :: bs => if a = b then lexLeB as bs else decide (a < b)

/-- Python string `<=` as a relation on strings. -/
def pyStrLe (a b : String) : Prop :=
  lexLeB a.data b.data = true

instance : DecidableRel pyStrLe := fun a b =>
  inferInstanceAs (Decidable (lexLeB a.data b.data = true))

/-- Lines 134-138: the target month.  `sorted(...)[-1]` of the non-unknown
keys when one exists, otherwise the last key. -/
def latestKey (monthly : List (String × MonthData)) : String :=
  let ks := monthly.map Prod.fst
  if ks.any (fun k => k ≠ "unknown") then
    (List.insertionSort pyStrLe
      (ks.filter (fun k => k ≠ "unknown"))).getLastD ""
  else ks.getLastD ""

/-- The descending order `sorted(..., reverse=True)` uses on the
`(abs(subtotal), category)` pairs: lexicographic, larger first (Python
tuple comparison, reversed). -/
def pairGE (p q : ℚ × String) : Prop :=
  q.1 < p.1 ∨ (p.1 = q.1 ∧ pyStrLe q.2 p.2)

instance : DecidableRel pairGE := fun p q =>
  inferInstanceAs (Decidable (q.1 < p.1 ∨ (p.1 = q.1 ∧ pyStrLe q.2 p.2)))

/-- Line 146: `sorted(((abs(v), k) for k, v in by_cat.items()),
reverse=True)[:3]`. -/
def topSpend (by_cat : List (String × ℚ)) : List (ℚ × String) :=
  (List.insertionSort pairGE
    (by_cat.map (fun kv => (|kv.2|, kv.1)))).take 3

/-- The suggestion string of lines 148-150. -/
def reduceMsg (p : ℚ × String) : String :=
  "Consider reducing spending on " ++ p.2 ++ " by about $" ++
    fmt2 (p.1 * 0.2) ++ " per month."

/-- `recommend_budget` (lines 126-165). -/
def recommend_budget (monthly : List (String × MonthData))
    (target_savings : ℚ := 0) : List String :=
  if monthly = [] then ["No data to produce recommendation."]
  else
    let latest := latestKey monthly
    let data := (alookup monthly latest).getD emptyMD
    let total := data.total
    let by_cat := data.by_category
    let suggestions :=
      if total < -500 then (topSpend by_cat).map reduceMsg
      else ["Spending looks reasonable this month."]
    if target_savings > 0 then
      let current_savings := if total > 0 then total else 0
      let need := max 0 (target_savings - current_savings)
      if need > 0 then
        suggestions ++ ["To reach a target savings of $" ++
          fmt2 target_savings ++ ", increase monthly savings by $" ++
          fmt2 need ++ "."]
      else suggestions ++ ["You are meeting or exceeding your savings target."]
    else suggestions

/-! ## Helper lemmas -/

theorem lexLeB_refl : ∀ l : List Char, lexLeB l l = true := by
  intro l
  induction l with
  | nil => rfl
  | cons a as ih => simp [lexLeB, ih]

theorem lexLeB_total : ∀ a b : List Char,
    lexLeB a b = true ∨ lexLeB b a = true := by
  intro a
  induction a with
  | nil => intro b; exact Or.inl rfl
  | cons x xs ih =>
    intro b
    cases b with
    | nil => exact Or.inr rfl
    | cons y ys =>
      by_cases hxy : x = y
      · subst hxy
        simpa [lexLeB] using ih ys
      · rcases lt_or_gt_of_ne hxy with h | h
        · left; simp [lexLeB, hxy, h]
        · right; simp [lexLeB, Ne.symm hxy, h]

theorem lexLeB_trans : ∀ a b c : List Char,
    lexLeB a b = true → lexLeB b c = true → lexLeB a c = true := by
  intro a
  induction a with
  | nil => intro b c _ _; rfl
  | cons x xs ih =>
    intro b c hab hbc
    cases b with
    | nil => simp [lexLeB] at hab
    | cons y ys =>
      cases c with
      | nil => simp [lexLeB] at hbc
      | cons z zs =>
        by_cases hxy : x = y <;> by_cases hyz : y = z
        · subst hxy; subst hyz
          simp only [lexLeB, if_pos rfl] at hab hbc ⊢
          exact ih ys zs hab hbc
        · subst hxy
          simp only [lexLeB, if_pos rfl, if_neg hyz] at hab hbc ⊢
          exact hbc
        · subst hyz
          simp only [lexLeB, if_pos rfl, if_neg hxy] at hab hbc ⊢
          exact hab
        · simp only [lexLeB, if_neg hxy, if_neg hyz, decide_eq_true_eq]
            at hab hbc
          have hxz : x < z := hab.trans hbc
          simp [lexLeB, ne_of_lt hxz, hxz]

theorem pyStrLe_refl (a : String) : pyStrLe a a :=
  lexLeB_refl a.data

theorem pyStrLe_trans {a b c : String} (h1 : pyStrLe a b)
    (h2 : pyStrLe b c) : pyStrLe a c :=
  lexLeB_trans a.data b.data c.data h1 h2

instance : IsTotal String pyStrLe :=
  ⟨fun a b => lexLeB_total a.data b.data⟩

instance : IsTrans String pyStrLe :=
  ⟨fun _ _ _ h1 h2 => pyStrLe_trans h1 h2⟩

theorem sorted_le_getLastD {l : List String} (hs : l.Pairwise pyStrLe) :
    ∀ x ∈ l, ∀ d, pyStrLe x (l.getLastD d) := by
  induction l with
  | nil => intro x hx; cases hx
  | cons a t ih =>
    intro x hx d
    rw [List.getLastD_cons]
    rcases List.mem_cons.mp hx with rfl | hxt
    · cases t with
      | nil => exact pyStrLe_refl x
      | cons b t2 =>
        rw [List.getLastD_cons]
        exact (List.pairwise_cons.mp hs).1 _ (List.getLastD_mem_cons t2 b)
    · cases t with
      | nil => cases hxt
      | cons b t2 => exact ih (List.pairwise_cons.mp hs).2 x hxt b

theorem getLastD_mem {l : List String} (h : l ≠ []) (d : String) :
    l.getLastD d ∈ l := by
  cases l with
  | nil => exact absurd rfl h
  | cons a t =>
    rw [List.getLastD_cons]
    rcases List.mem_cons.mp (List.getLastD_mem_cons t a) with he | hm
    · rw [he]; exact List.mem_cons_self a t
    · exact List.mem_cons_of_mem a hm

theorem parseRow_date_some {row : Row} {t : Txn}
    (h : parseRow row = Except.ok t) : ∃ d, t.date = some d := by
  simp only [parseRow] at h
  rcases hd : parse_date (pyOr2 (rget row "date") (rget row "Date")) with e | dob
  · rw [hd] at h; cases h
  · rw [hd] at h
    rcases ha : parse_amount (pyOrD (pyOr2 (rget row "amount")
        (rget row "Amount")) "0") with _ | v
    · rw [ha] at h; cases h
    · rw [ha] at h
      cases h
      exact ⟨dob, rfl⟩

theorem parseRows_ok_dates {rows : List Row} {out : List Txn}
    (h : parseRows rows = Except.ok out) :
    ∀ t ∈ out, ∃ d, t.date = some d := by
  induction rows generalizing out with
  | nil =>
    simp only [parseRows] at h
    cases h
    intro t ht; cases ht
  | cons row rest ih =>
    by_cases he : row = []
    · rw [parseRows, if_pos he] at h
      exact ih h
    · rw [parseRows, if_neg he] at h
      rcases hr : parseRow row with e | t0
      · rw [hr] at h; cases h
      · rw [hr] at h
        rcases hrest : parseRows rest with e | ts
        · rw [hrest] at h; cases h
        · rw [hrest] at h
          cases h
          intro t ht
          rcases List.mem_cons.mp ht with rfl | hm
          · exact parseRow_date_some hr
          · exact ih hrest t hm

theorem parseRows_error_of_bad_row {rows : List Row} {row : Row}
    (hmem : row ∈ rows) (hne : row ≠ [])
    (hbad : ∃ e, parseRow row = Except.error e) :
    ∃ e, parseRows rows = Except.error e := by
  induction rows with
  | nil => cases hmem
  | cons hd rest ih =>
    by_cases he : hd = []
    · rw [parseRows, if_pos he]
      rcases List.mem_cons.mp hmem with rfl | hm
      · exact absurd he hne
      · exact ih hm
    · rw [parseRows, if_neg he]
      rcases hhd : parseRow hd with e0 | t0
      · exact ⟨e0, rfl⟩
      · rcases List.mem_cons.mp hmem with rfl | hm
        · rcases hbad with ⟨e, hbe⟩
          rw [hbe] at hhd; cases hhd
        · rcases ih hm with ⟨e, hre⟩
          rw [hre]
          exact ⟨e, rfl⟩

/-- The month key of a dated transaction always contains a dash, so it is
never the literal key `"unknown"`. -/
theorem monthKey_ne_unknown (d : Date) : monthKey d ≠ "unknown" := by
  intro h
  have hdash : '-' ∈ (monthKey d).data := by
    have : (monthKey d).data =
        (zpad 4 d.year).data ++ ('-' :: (zpad 2 d.month).data) := by
      simp [monthKey, String.data_append]
    rw [this]
    exact List.mem_append_right _ (List.mem_cons_self _ _)
  rw [h] at hdash
  revert hdash
  decide

/-! ## Claim C1 -/

/-- The claim of C1 as stated is false: on the exceptional exit path the
close at project.py:53-54 is skipped.  A path source whose single row has an
unparseable date makes the call fail with the handle still open. -/
theorem C1_counterexample :
    parse_transactions (CsvSource.path
        [[("date", "oops"), ("description", "x"), ("amount", "1")]]) =
      (Except.error (Err.dateFormat "oops"), false) := by
  decide

/-- C1 (amended): when `parse_transactions` is given a file path, the handle
it opens is closed on the successful exit path, but when parsing raises an
exception the call exits without closing the handle. -/
theorem C1_close_only_on_success (rows : List Row) :
    (∀ out, parseRows rows = Except.ok out →
      parse_transactions (CsvSource.path rows) = (Except.ok out, true)) ∧
    (∀ e, parseRows rows = Except.error e →
      parse_transactions (CsvSource.path rows) = (Except.error e, false)) := by
  constructor
  · intro out h
    simp [parse_transactions, h]
  · intro e h
    simp [parse_transactions, h]

theorem C1_witness :
    parse_transactions (CsvSource.path [[("date", "2025-01-05"),
        ("description", "Coffee Shop"), ("amount", "-3.50")]]) =
      (Except.ok [{ date := some ⟨2025, 1, 5⟩,
                    description := some "Coffee Shop",
                    amount := some (mkRat (-7) 2), category := none }], true) :=
  (C1_close_only_on_success _).1 _ (by decide)

/-! ## Claim C8 -/

/-- The parenthetical of C8 is false: a row with a missing date cell does
reach the date-format error path — the `AttributeError` from `None.strip()`
is swallowed by the bare `except` clauses and the `ValueError` of
project.py:43 is raised, its message rendering the raw date as `None`. -/
theorem C8_counterexample :
    parseRows [[("description", "x"), ("amount", "5")]] =
      Except.error (Err.dateFormat "None") := by
  decide

/-- C8 (amended): `parse_transactions` never returns a transaction whose
date is absent — a successful parse yields only dated transactions, whose
month keys are never `"unknown"` — and a processed row whose date cell is
missing or empty raises the date-format error (its raw text rendered as
`None` when the cell is absent), so the `"unknown"` month key is
unreachable for Parser-produced transactions. -/
theorem C8_no_absent_dates (rows : List Row) :
    (∀ out, parseRows rows = Except.ok out →
      ∀ t ∈ out, ∃ d, t.date = some d) ∧
    (∀ out, parseRows rows = Except.ok out →
      ∀ t ∈ out, keyOf t ≠ "unknown") ∧
    (∀ row ∈ rows, row ≠ [] →
      pyOr2 (rget row "date") (rget row "Date") = none →
      parseRows rows = Except.error (Err.dateFormat "None") ∨
        ∃ e, parseRows rows = Except.error e) := by
  refine ⟨fun out h => parseRows_ok_dates h, ?_, ?_⟩
  · intro out h t ht
    rcases parseRows_ok_dates h t ht with ⟨d, hd⟩
    rw [keyOf, hd]
    exact monthKey_ne_unknown d
  · intro row hmem hne hdate
    refine Or.inr (parseRows_error_of_bad_row hmem hne ?_)
    refine ⟨Err.dateFormat "None", ?_⟩
    unfold parseRow
    rw [hdate]
    rfl

theorem C8_witness :
    keyOf { date := some ⟨2025, 1, 5⟩, description := some "",
            amount := some 1, category := none } ≠ "unknown" :=
  (C8_no_absent_dates [[("date", "2025-01-05"), ("amount", "1")]]).2.1
    [{ date := some ⟨2025, 1, 5⟩, description := some "",
       amount := some 1, category := none }]
    (by decide) _ (by decide)

/-! ## Advisor lemmas and claims C6, C5, C10 -/

instance : IsTotal (ℚ × String) pairGE := by
  constructor
  intro p q
  rcases lt_trichotomy p.1 q.1 with h | h | h
  · exact Or.inr (Or.inl h)
  · rcases lexLeB_total q.2.data p.2.data with h2 | h2
    · exact Or.inl (Or.inr ⟨h, h2⟩)
    · exact Or.inr (Or.inr ⟨h.symm, h2⟩)
  · exact Or.inl (Or.inl h)

instance : IsTrans (ℚ × String) pairGE := by
  constructor
  intro p q r hpq hqr
  rcases hpq with h1 | ⟨e1, s1⟩ <;> rcases hqr with h2 | ⟨e2, s2⟩
  · exact Or.inl (h2.trans h1)
  · exact Or.inl (e2 ▸ h1)
  · exact Or.inl (e1 ▸ h2)
  · exact Or.inr ⟨e1.trans e2, pyStrLe_trans s2 s1⟩

/-- C6: for every non-empty summaries mapping, `recommend_budget` selects as
target month the lexicographically maximum key among the keys not equal to
`"unknown"`; when every key equals `"unknown"` it selects the last key
(deterministic for a single key). -/
theorem C6_target_month (monthly : List (String × MonthData))
    (_hne : monthly ≠ []) :
    ((∃ k ∈ monthly.map Prod.fst, k ≠ "unknown") →
      latestKey monthly ∈ monthly.map Prod.fst ∧
      latestKey monthly ≠ "unknown" ∧
      ∀ k ∈ monthly.map Prod.fst, k ≠ "unknown" →
        pyStrLe k (latestKey monthly)) ∧
    ((∀ k ∈ monthly.map Prod.fst, k = "unknown") →
      latestKey monthly = (monthly.map Prod.fst).getLastD "") := by
  constructor
  · rintro ⟨k0, hk0m, hk0u⟩
    have hany : (monthly.map Prod.fst).any (fun k => k ≠ "unknown") = true := by
      rw [List.any_eq_true]
      exact ⟨k0, hk0m, by simpa using hk0u⟩
    have hlk : latestKey monthly =
        (List.insertionSort pyStrLe
          ((monthly.map Prod.fst).filter
            (fun k => k ≠ "unknown"))).getLastD "" := by
      simp only [latestKey, hany, if_true]
    have hmemF : k0 ∈ (monthly.map Prod.fst).filter
        (fun k => k ≠ "unknown") :=
      List.mem_filter.mpr ⟨hk0m, by simpa using hk0u⟩
    have hperm := List.perm_insertionSort pyStrLe
      ((monthly.map Prod.fst).filter (fun k => k ≠ "unknown"))
    have hSne : List.insertionSort pyStrLe
        ((monthly.map Prod.fst).filter (fun k => k ≠ "unknown")) ≠ [] := by
      intro h0
      rw [h0] at hperm
      exact absurd (hperm.symm.subset hmemF) (List.not_mem_nil k0)
    have hlastS := getLastD_mem hSne ""
    have hlastF := hperm.subset hlastS
    have hsorted : List.Pairwise pyStrLe
        (List.insertionSort pyStrLe
          ((monthly.map Prod.fst).filter (fun k => k ≠ "unknown"))) :=
      List.sorted_insertionSort pyStrLe _
    refine ⟨?_, ?_, ?_⟩
    · rw [hlk]
      exact (List.mem_filter.mp hlastF).1
    · rw [hlk]
      have := (List.mem_filter.mp hlastF).2
      simpa using this
    · intro k hkm hku
      have hkF : k ∈ (monthly.map Prod.fst).filter
          (fun k => k ≠ "unknown") :=
        List.mem_filter.mpr ⟨hkm, by simpa using hku⟩
      have hkS := hperm.symm.subset hkF
      rw [hlk]
      exact sorted_le_getLastD hsorted k hkS ""
  · intro hall
    have hany : (monthly.map Prod.fst).any (fun k => k ≠ "unknown") = false := by
      rw [List.any_eq_false]
      intro k hk
      simp [hall k hk]
    simp only [latestKey, hany, Bool.false_eq_true, if_false]

theorem C6_witness :
    latestKey [("2025-01", emptyMD), ("unknown", emptyMD),
        ("2024-12", emptyMD)] ∈
      ([("2025-01", emptyMD), ("unknown", emptyMD),
        ("2024-12", emptyMD)].map Prod.fst) ∧
    latestKey [("2025-01", emptyMD), ("unknown", emptyMD),
        ("2024-12", emptyMD)] ≠ "unknown" ∧
    ∀ k ∈ ([("2025-01", emptyMD), ("unknown", emptyMD),
        ("2024-12", emptyMD)].map Prod.fst), k ≠ "unknown" →
      pyStrLe k (latestKey [("2025-01", emptyMD), ("unknown", emptyMD),
        ("2024-12", emptyMD)]) :=
  (C6_target_month _ (by decide)).1 ⟨"2025-01", by decide, by decide⟩

/-- C5: with the target month's data in hand, `recommend_budget` takes the
overspend branch exactly when the total is strictly below −500: it then
emits one suggestion per entry of the ranked top-3 list (descending by
absolute subtotal, tie-broken by label), each naming 20% (= 1/5) of the
absolute subtotal formatted to two decimals; for a total of −500 or more it
emits exactly the single "reasonable" suggestion. -/
theorem C5_overspend_branch (monthly : List (String × MonthData))
    (hne : monthly ≠ []) (data : MonthData)
    (hdata : alookup monthly (latestKey monthly) = some data) :
    (data.total < -500 →
      recommend_budget monthly 0 = (topSpend data.by_category).map reduceMsg ∧
      (topSpend data.by_category).length = min 3 data.by_category.length ∧
      (topSpend data.by_category).Pairwise pairGE ∧
      ∀ p ∈ topSpend data.by_category,
        reduceMsg p = "Consider reducing spending on " ++ p.2 ++
          " by about $" ++ fmt2 (p.1 * mkRat 1 5) ++ " per month.") ∧
    (-500 ≤ data.total →
      recommend_budget monthly 0 = ["Spending looks reasonable this month."]) := by
  have hrb : recommend_budget monthly 0 =
      if data.total < -500 then (topSpend data.by_category).map reduceMsg
      else ["Spending looks reasonable this month."] := by
    simp only [recommend_budget, if_neg hne, hdata, Option.getD_some]
    norm_num
  constructor
  · intro hlt
    refine ⟨by rw [hrb, if_pos hlt], ?_, ?_, ?_⟩
    · rw [topSpend, List.length_take,
        (List.perm_insertionSort pairGE _).length_eq, List.length_map]
    · exact List.Pairwise.sublist (List.take_sublist 3 _)
        (List.sorted_insertionSort pairGE _)
    · intro p hp
      have h02 : (0.2 : ℚ) = mkRat 1 5 := by norm_num
      rw [reduceMsg, h02]
  · intro hge
    rw [hrb, if_neg (not_lt.mpr hge)]

theorem C5_witness :
    recommend_budget [("2025-09",
        { total := -600, count := 3,
          by_category := [("Dining", -400), ("Fun", -200)] })] 0 =
      ["Consider reducing spending on Dining by about $80.00 per month.",
       "Consider reducing spending on Fun by about $40.00 per month."] := by
  have h := (C5_overspend_branch
    [("2025-09", { total := -600, count := 3,
                   by_category := [("Dining", -400), ("Fun", -200)] })]
    (by decide)
    { total := -600, count := 3,
      by_category := [("Dining", -400), ("Fun", -200)] }
    (by decide)).1 (by decide)
  rw [h.1]
  have e1 : topSpend [("Dining", (-400 : ℚ)), ("Fun", -200)] =
      [(400, "Dining"), (200, "Fun")] := by decide
  rw [e1]
  simp only [List.map, reduceMsg]
  have e2 : (400 : ℚ) * 0.2 = 80 := by norm_num
  have e3 : (200 : ℚ) * 0.2 = 40 := by norm_num
  rw [e2, e3]
  decide

/-- C10: the advisor's ranking (project.py:146) is a deterministic function
of `by_category`: it sorts the `(abs(subtotal), label)` pairs by the reverse
lexicographic pair order `pairGE` (so two categories with equal absolute
subtotal are ordered by label, descending) and takes the first three. -/
theorem C10_tie_order (by_cat : List (String × ℚ)) :
    (topSpend by_cat).Pairwise pairGE ∧
    List.Perm (List.insertionSort pairGE
        (by_cat.map (fun kv => (|kv.2|, kv.1))))
      (by_cat.map (fun kv => (|kv.2|, kv.1))) ∧
    (∀ p q, List.Sublist [p, q] (topSpend by_cat) → p.1 = q.1 →
      pyStrLe q.2 p.2) := by
  have hpair : (topSpend by_cat).Pairwise pairGE :=
    List.Pairwise.sublist (List.take_sublist 3 _)
      (List.sorted_insertionSort pairGE _)
  refine ⟨hpair, List.perm_insertionSort _ _, ?_⟩
  intro p q hsub heq
  have h2 : List.Pairwise pairGE [p, q] := hpair.sublist hsub
  have hrel : pairGE p q := (List.pairwise_cons.mp h2).1 q
    (List.mem_cons_self q [])
  rcases hrel with hlt | ⟨_, hle⟩
  · rw [heq] at hlt
    exact absurd hlt (lt_irrefl _)
  · exact hle

theorem C10_witness : pyStrLe "A" "C" := by
  have e : topSpend [("A", (-10 : ℚ)), ("C", -10)] =
      [(10, "C"), (10, "A")] := by decide
  refine (C10_tie_order [("A", -10), ("C", -10)]).2.2
    (10, "C") (10, "A") ?_ rfl
  rw [e]

/-! ## Aggregator lemmas and claims C3, C9 -/

/-- Folding a batch of transactions into one month record. -/
def procAll (d : MonthData) (l : List Txn) : MonthData :=
  l.foldl accTxn d

theorem procAll_cons (d : MonthData) (t : Txn) (l : List Txn) :
    procAll d (t :: l) = procAll (accTxn d t) l := rfl

theorem procAll_total (d : MonthData) (l : List Txn) :
    (procAll d l).total = d.total + (l.map amtOf).sum := by
  induction l generalizing d with
  | nil => simp [procAll]
  | cons t rest ih =>
    rw [procAll_cons, ih]
    simp [accTxn]
    ring

theorem procAll_count (d : MonthData) (l : List Txn) :
    (procAll d l).count = d.count + l.length := by
  induction l generalizing d with
  | nil => simp [procAll]
  | cons t rest ih =>
    rw [procAll_cons, ih]
    simp [accTxn]
    omega

theorem sum_upsertCat (bc : List (String × ℚ)) (c : String) (amt : ℚ) :
    ((upsertCat bc c amt).map Prod.snd).sum = (bc.map Prod.snd).sum + amt := by
  induction bc with
  | nil => simp [upsertCat]
  | cons hd tl ih =>
    obtain ⟨c0, v0⟩ := hd
    by_cases h : c0 = c
    · simp [upsertCat, h]
      ring
    · simp [upsertCat, h, ih]
      ring

theorem procAll_bc_sum (d : MonthData) (l : List Txn) :
    ((procAll d l).by_category.map Prod.snd).sum =
      (d.by_category.map Prod.snd).sum + (l.map amtOf).sum := by
  induction l generalizing d with
  | nil => simp [procAll]
  | cons t rest ih =>
    rw [procAll_cons, ih]
    simp [accTxn, sum_upsertCat]
    ring

theorem keys_upsertCat_sub (bc : List (String × ℚ)) (c : String) (amt : ℚ) :
    ∀ x ∈ (upsertCat bc c amt).map Prod.fst, x ∈ bc.map Prod.fst ∨ x = c := by
  induction bc with
  | nil =>
    intro x hx
    simp [upsertCat] at hx
    exact Or.inr hx
  | cons hd tl ih =>
    obtain ⟨c0, v0⟩ := hd
    intro x hx
    by_cases h : c0 = c
    · simp only [upsertCat, if_pos h, List.map_cons, List.mem_cons] at hx
      rcases hx with rfl | hx
      · exact Or.inr h
      · exact Or.inl (List.mem_cons_of_mem c0 hx)
    · simp only [upsertCat, if_neg h, List.map_cons, List.mem_cons] at hx
      rcases hx with rfl | hx
      · exact Or.inl (List.mem_cons_self x _)
      · rcases ih x hx with h2 | h2
        · exact Or.inl (List.mem_cons_of_mem c0 h2)
        · exact Or.inr h2

theorem procAll_bc_keys (d : MonthData) (l : List Txn) :
    ∀ c ∈ (procAll d l).by_category.map Prod.fst,
      c ∈ d.by_category.map Prod.fst ∨ ∃ t ∈ l, catOf t = c := by
  induction l generalizing d with
  | nil =>
    intro c hc
    exact Or.inl (by simpa [procAll] using hc)
  | cons t rest ih =>
    intro c hc
    rw [procAll_cons] at hc
    rcases ih (accTxn d t) c hc with hmem | ⟨t2, ht2, hc2⟩
    · rcases keys_upsertCat_sub d.by_category (catOf t) (amtOf t) c hmem
        with h | h
      · exact Or.inl h
      · exact Or.inr ⟨t, List.mem_cons_self t rest, h.symm⟩
    · exact Or.inr ⟨t2, List.mem_cons_of_mem t ht2, hc2⟩

theorem alookup_upsertMonth (s : List (String × MonthData)) (k kt : String)
    (t : Txn) :
    alookup (upsertMonth s kt t) k =
      if kt = k then some (accTxn ((alookup s k).getD emptyMD) t)
      else alookup s k := by
  induction s with
  | nil =>
    by_cases h : kt = k
    · simp [upsertMonth, alookup, h]
    · simp [upsertMonth, alookup, h]
  | cons hd tl ih =>
    obtain ⟨k0, d0⟩ := hd
    by_cases h1 : k0 = kt
    · subst h1
      by_cases h2 : k0 = k
      · subst h2
        simp [upsertMonth, alookup]
      · simp [upsertMonth, alookup, h2]
    · by_cases h2 : k0 = k
      · subst h2
        have h3 : kt ≠ k0 := fun he => h1 he.symm
        simp [upsertMonth, alookup, h1, h3]
      · simp [upsertMonth, alookup, h1, h2, ih]

theorem ms_fold_lookup (txns : List Txn) (s : List (String × MonthData))
    (k : String) :
    alookup (txns.foldl (fun s t => upsertMonth s (keyOf t) t) s) k =
      if alookup s k = none ∧ txns.filter (fun t => keyOf t = k) = []
      then none
      else some (procAll ((alookup s k).getD emptyMD)
        (txns.filter (fun t => keyOf t = k))) := by
  induction txns generalizing s with
  | nil =>
    simp only [List.foldl_nil, List.filter_nil]
    cases h : alookup s k with
    | none => simp [h, procAll]
    | some d => simp [h, procAll]
  | cons t rest ih =>
    rw [List.foldl_cons, ih (upsertMonth s (keyOf t) t)]
    by_cases hk : keyOf t = k
    · have hf : (t :: rest).filter (fun t => keyOf t = k) =
          t :: rest.filter (fun t => keyOf t = k) := by
        simp [List.filter_cons, hk]
      rw [alookup_upsertMonth, if_pos hk, hf]
      rw [if_neg (by simp), if_neg (by simp)]
      simp [procAll_cons]
    · have hf : (t :: rest).filter (fun t => keyOf t = k) =
          rest.filter (fun t => keyOf t = k) := by
        simp [List.filter_cons, hk]
      rw [alookup_upsertMonth, if_neg hk, hf]

theorem ms_lookup (txns : List Txn) (k : String) :
    alookup (monthly_summary txns) k =
      if txns.filter (fun t => keyOf t = k) = [] then none
      else some (procAll emptyMD (txns.filter (fun t => keyOf t = k))) := by
  rw [monthly_summary, ms_fold_lookup txns [] k]
  simp only [alookup, Option.getD_none, true_and]

theorem keys_upsertMonth (s : List (String × MonthData)) (k : String)
    (t : Txn) :
    (upsertMonth s k t).map Prod.fst =
      if k ∈ s.map Prod.fst then s.map Prod.fst
      else s.map Prod.fst ++ [k] := by
  induction s with
  | nil => simp [upsertMonth]
  | cons hd tl ih =>
    obtain ⟨k0, d0⟩ := hd
    by_cases h : k0 = k
    · subst h
      simp [upsertMonth]
    · have h2 : ¬ (k = k0) := fun he => h he.symm
      by_cases h3 : k ∈ tl.map Prod.fst
      · simp [upsertMonth, h, ih, h2, h3]
      · simp [upsertMonth, h, ih, h2, h3]

theorem nodup_keys_fold (txns : List Txn) (s : List (String × MonthData))
    (h : (s.map Prod.fst).Nodup) :
    ((txns.foldl (fun s t => upsertMonth s (keyOf t) t) s).map
      Prod.fst).Nodup := by
  induction txns generalizing s with
  | nil => simpa using h
  | cons t rest ih =>
    rw [List.foldl_cons]
    apply ih
    rw [keys_upsertMonth]
    by_cases h2 : keyOf t ∈ s.map Prod.fst
    · simpa [h2] using h
    · simp only [h2, if_false]
      simp [List.nodup_append, h, h2]

/-- C3: in `monthly_summary`'s output, each month entry's total is the sum
of the amounts of exactly the input transactions mapping to that key and
its count is the number of such transactions; an entry exists for a key
exactly when some input transaction maps to it, and the keys are distinct
(one entry per observed MonthKey). -/
theorem C3_monthly_summary (txns : List Txn) (k : String) :
    (∀ d, alookup (monthly_summary txns) k = some d →
      d.total = ((txns.filter (fun t => keyOf t = k)).map amtOf).sum ∧
      d.count = (txns.filter (fun t => keyOf t = k)).length) ∧
    (alookup (monthly_summary txns) k ≠ none ↔ k ∈ txns.map keyOf) ∧
    ((monthly_summary txns).map Prod.fst).Nodup := by
  refine ⟨?_, ?_, nodup_keys_fold txns [] (by simp)⟩
  · intro d hd
    rw [ms_lookup] at hd
    by_cases hf : txns.filter (fun t => keyOf t = k) = []
    · rw [if_pos hf] at hd; cases hd
    · rw [if_neg hf] at hd
      have hde : d = procAll emptyMD (txns.filter (fun t => keyOf t = k)) :=
        (Option.some.inj hd).symm
      rw [hde, procAll_total, procAll_count]
      simp [emptyMD]
  · rw [ms_lookup]
    by_cases hf : txns.filter (fun t => keyOf t = k) = []
    · rw [if_pos hf]
      simp only [ne_eq, not_true_eq_false, false_iff]
      intro hk
      rcases List.mem_map.mp hk with ⟨t, ht, hkt⟩
      have : t ∈ txns.filter (fun t => keyOf t = k) :=
        List.mem_filter.mpr ⟨ht, by simp [hkt]⟩
      rw [hf] at this
      cases this
    · rw [if_neg hf]
      simp only [ne_eq, reduceCtorEq, not_false_eq_true, true_iff]
      rcases List.exists_mem_of_ne_nil _ hf with ⟨t, ht⟩
      have hm := List.mem_filter.mp ht
      exact List.mem_map.mpr ⟨t, hm.1, by simpa using hm.2⟩

/-- C9: every entry of `monthly_summary`'s output satisfies the invariants:
its total equals the sum of its per-category subtotals, its count is at
least one, and every category label in `by_category` is the (defaulted)
category of some input transaction mapping to that month key. -/
theorem C9_summary_invariants (txns : List Txn) (k : String) (d : MonthData)
    (h : alookup (monthly_summary txns) k = some d) :
    d.total = (d.by_category.map Prod.snd).sum ∧
    1 ≤ d.count ∧
    (∀ c ∈ d.by_category.map Prod.fst,
      ∃ t ∈ txns, keyOf t = k ∧ catOf t = c) := by
  rw [ms_lookup] at h
  by_cases hf : txns.filter (fun t => keyOf t = k) = []
  · rw [if_pos hf] at h; cases h
  · rw [if_neg hf] at h
    have hde : d = procAll emptyMD (txns.filter (fun t => keyOf t = k)) :=
      (Option.some.inj h).symm
    refine ⟨?_, ?_, ?_⟩
    · rw [hde, procAll_total, procAll_bc_sum]
      simp [emptyMD]
    · rw [hde, procAll_count]
      have := List.length_pos.mpr hf
      simp [emptyMD]
      omega
    · intro c hc
      rw [hde] at hc
      rcases procAll_bc_keys emptyMD _ c hc with habs | ⟨t, htF, hct⟩
      · simp [emptyMD] at habs
      · have hm := List.mem_filter.mp htF
        exact ⟨t, hm.1, by simpa using hm.2, hct⟩

/-- Concrete transactions for the aggregation witnesses. -/
def wTxn1 : Txn :=
  { date := none, description := some "A", amount := some (-10),
    category := some "X" }

def wTxn2 : Txn :=
  { date := none, description := some "B", amount := some (-5),
    category := some "X" }

theorem wTxns_lookup :
    alookup (monthly_summary [wTxn1, wTxn2]) "unknown" =
      some { total := -15, count := 2, by_category := [("X", -15)] } := by
  norm_num [monthly_summary, List.foldl_cons, List.foldl_nil, upsertMonth,
    accTxn, upsertCat, alookup, keyOf, amtOf, catOf, emptyMD, wTxn1, wTxn2]

theorem C3_witness :
    ({ total := -15, count := 2, by_category := [("X", -15)] }
        : MonthData).total =
      (([wTxn1, wTxn2].filter (fun t => keyOf t = "unknown")).map
        amtOf).sum ∧
    ({ total := -15, count := 2, by_category := [("X", -15)] }
        : MonthData).count =
      ([wTxn1, wTxn2].filter (fun t => keyOf t = "unknown")).length :=
  (C3_monthly_summary [wTxn1, wTxn2] "unknown").1 _ wTxns_lookup

theorem C9_witness :
    ({ total := -15, count := 2, by_category := [("X", -15)] }
        : MonthData).total =
      (({ total := -15, count := 2, by_category := [("X", -15)] }
        : MonthData).by_category.map Prod.snd).sum ∧
    1 ≤ ({ total := -15, count := 2, by_category := [("X", -15)] }
        : MonthData).count ∧
    (∀ c ∈ ({ total := -15, count := 2, by_category := [("X", -15)] }
        : MonthData).by_category.map Prod.fst,
      ∃ t ∈ [wTxn1, wTxn2], keyOf t = "unknown" ∧ catOf t = c) :=
  C9_summary_invariants [wTxn1, wTxn2] "unknown" _ wTxns_lookup

/-! ## Categorizer lemmas and claim C4 -/

theorem leadCheck_iff (n : List Char) : ∀ h : List Char,
    (leadCheck n h = true ↔ n <+: h) := by
  induction n with
  | nil =>
    intro h
    simp [leadCheck, List.nil_prefix]
  | cons a as ih =>
    intro h
    cases h with
    | nil =>
      simp [leadCheck]
    | cons b bs =>
      by_cases hab : a = b
      · subst hab
        simp [leadCheck, List.cons_prefix_cons, ih bs]
      · simp [leadCheck, hab, List.cons_prefix_cons]

theorem containsSub_iff (n : List Char) : ∀ h : List Char,
    (containsSub n h = true ↔ List.IsInfix n h) := by
  intro h
  induction h with
  | nil =>
    simp [containsSub, List.isEmpty_iff, List.infix_nil]
  | cons c t ih =>
    simp [containsSub, leadCheck_iff, ih, List.infix_cons_iff,
      Bool.or_eq_true]

theorem matchLoop_eq_find (desc cat : String)
    (rules : List (String × String)) :
    matchLoop desc cat rules =
      (rules.find? (fun p => containsSub p.1.data desc.data)).elim cat
        Prod.snd := by
  induction rules with
  | nil => rfl
  | cons hd tl ih =>
    obtain ⟨kw, c⟩ := hd
    by_cases h : containsSub kw.data desc.data = true
    · simp [matchLoop, List.find?, h]
    · rw [Bool.not_eq_true] at h
      simp [matchLoop, List.find?, h, ih]

/-- C4: `categorize_transactions` assigns the category of the first rule
keyword (in rule-iteration order) that occurs as a substring of the
lowercased description, and `"Uncategorized"` when no keyword occurs; the
matching test is genuine substring containment, and an absent description
behaves as empty text, always yielding `"Uncategorized"` under the default
rules. -/
theorem C4_categorizer (t : Txn) (rules : List (String × String)) :
    (categorize_transactions [t] rules =
      [{ t with
          category := some ((rules.find?
            (fun p => containsSub p.1.data (descKey t).data)).elim
              "Uncategorized" Prod.snd) }]) ∧
    (∀ kw hay : String, containsSub kw.data hay.data = true ↔
      List.IsInfix kw.data hay.data) ∧
    (t.description = none →
      categorize_transactions [t] default_rules =
        [{ t with category := some "Uncategorized" }]) := by
  refine ⟨?_, fun kw hay => containsSub_iff kw.data hay.data, ?_⟩
  · simp only [categorize_transactions, List.map]
    rw [matchLoop_eq_find]
  · intro hdesc
    have hd0 : descKey t = "" := by
      rw [descKey, hdesc]
      rfl
    simp only [categorize_transactions, List.map]
    rw [hd0]
    have hm : matchLoop "" "Uncategorized" default_rules =
        "Uncategorized" := by decide
    rw [hm]

theorem C4_witness :
    categorize_transactions
        [{ date := none, description := none,
           amount := none, category := none }] default_rules =
      [{ date := none, description := none, amount := none,
         category := some "Uncategorized" }] :=
  (C4_categorizer
    { date := none, description := none, amount := none,
      category := none } default_rules).2.2 rfl

/-! ## Claim C2 -/

/-- C2: a processed row whose date text fails the three fixed formats and
the ISO fallback makes the whole call fail with the date-format error
carrying the raw text; no transaction list is produced (the result type
admits no partial output).  Rows before the failing one may parse fine or
be empty — the error still aborts everything. -/
theorem C2_date_failure_aborts (pre post : List Row) (row : Row) (s : String)
    (hpre : ∀ r ∈ pre, r = [] ∨ ∃ t0, parseRow r = Except.ok t0)
    (hrow : row ≠ [])
    (hraw : pyOr2 (rget row "date") (rget row "Date") = some s)
    (hfmts : tryFormats (some s) = none)
    (hiso : fromisoformat (pyStrip s) = none) :
    parseRows (pre ++ row :: post) = Except.error (Err.dateFormat s) := by
  induction pre with
  | nil =>
    rw [List.nil_append, parseRows, if_neg hrow]
    have hpd : parse_date (pyOr2 (rget row "date") (rget row "Date")) =
        Except.error (Err.dateFormat s) := by
      rw [hraw]
      simp only [parse_date, hfmts, hiso, fstr]
    rw [parseRow]
    simp only [hpd]
  | cons r pre2 ih =>
    have hr := hpre r (List.mem_cons_self r _)
    have hrec := ih (fun r2 hr2 => hpre r2 (List.mem_cons_of_mem r hr2))
    rw [List.cons_append, parseRows]
    by_cases he : r = []
    · rw [if_pos he]
      exact hrec
    · rw [if_neg he]
      rcases hr with he2 | ⟨t0, ht0⟩
      · exact absurd he2 he
      · rw [ht0, hrec]

theorem C2_witness :
    parseRows ([[("date", "2025-01-05"), ("amount", "1")]] ++
        [("date", "2025/01/05"), ("amount", "1")] :: []) =
      Except.error (Err.dateFormat "2025/01/05") :=
  C2_date_failure_aborts [[("date", "2025-01-05"), ("amount", "1")]] []
    [("date", "2025/01/05"), ("amount", "1")] "2025/01/05"
    (fun r hr => Or.inr ⟨{ date := some ⟨2025, 1, 5⟩,
                           description := some "", amount := some 1,
                           category := none },
      by rw [List.mem_singleton.mp hr]; decide⟩)
    (by decide) rfl (by decide) (by decide)

/-! ## Serialization (spec side) and claim C7 -/

/-- ASCII digit character of a digit value. -/
def digitChar (d : Nat) : Char := Char.ofNat (48 + d)

/-- Base-10 digits, least significant first, by fuel recursion (structurally
computable; agrees with `Nat.digits 10`, see `natDigits_eq`). -/
def natDigitsAux : Nat → Nat → List Nat
  | 0, _ => []
  | _ + 1, 0 => []
  | fuel + 1, n + 1 => (n + 1) % 10 :: natDigitsAux fuel ((n + 1) / 10)

/-- Base-10 digits of `n`, least significant first. -/
def natDigits (n : Nat) : List Nat := natDigitsAux n n

/-- The decimal digit characters of `n`, as `str(n)` prints them. -/
def natChars (n : Nat) : List Char :=
  if n = 0 then ['0'] else (natDigits n).reverse.map digitChar

/-- Comma-grouping helper: insert `,` after every third character, working
least significant first. -/
def group3Aux : Nat → List Char → List Char
  | _, [] => []
  | 0, c :: rest => ',' :: c :: group3Aux 2 rest
  | k + 1, c :: rest => c :: group3Aux k rest

/-- `str(n)` with comma thousands grouping (`1234 ↦ "1,234"`). -/
def natCharsGrouped (n : Nat) : List Char :=
  (group3Aux 3 (natChars n).reverse).reverse

/-- Most-significant-first numeric value of a digit list. -/
def msdVal (l : List Nat) : Nat :=
  l.foldl (fun a d => a * 10 + d) 0

/-- Spec-side serializer: decimal text with comma thousands grouping, for a
sign, an integer part and a list of fraction digits. -/
def serializeGrouped (neg : Bool) (n : Nat) (frac : List Nat) : String :=
  String.mk ((if neg then ['-'] else []) ++ natCharsGrouped n ++
    (if frac = [] then [] else '.' :: frac.map digitChar))

/-- The same text without grouping. -/
def serializePlain (neg : Bool) (n : Nat) (frac : List Nat) : String :=
  String.mk ((if neg then ['-'] else []) ++ natChars n ++
    (if frac = [] then [] else '.' :: frac.map digitChar))

/-- The numeric value the serialized text denotes. -/
def serializedVal (neg : Bool) (n : Nat) (frac : List Nat) : ℚ :=
  let mag : ℚ :=
    if frac = [] then (n : ℚ)
    else mkRat (n * 10 ^ frac.length + msdVal frac) (10 ^ frac.length)
  if neg then -mag else mag

theorem digitChar_isDigit {d : Nat} (h : d < 10) :
    (digitChar d).isDigit = true := by
  interval_cases d <;> decide

theorem digitChar_ne_comma {d : Nat} (h : d < 10) : digitChar d ≠ ',' := by
  interval_cases d <;> decide

theorem digitChar_ne_dot {d : Nat} (h : d < 10) : digitChar d ≠ '.' := by
  interval_cases d <;> decide

theorem digitChar_ne_dash {d : Nat} (h : d < 10) : digitChar d ≠ '-' := by
  interval_cases d <;> decide

theorem digitChar_ne_plus {d : Nat} (h : d < 10) : digitChar d ≠ '+' := by
  interval_cases d <;> decide

theorem digitChar_toNat {d : Nat} (h : d < 10) :
    (digitChar d).toNat - 48 = d := by
  interval_cases d <;> decide

theorem natDigitsAux_eq (fuel : Nat) : ∀ n, n ≤ fuel →
    natDigitsAux fuel n = Nat.digits 10 n := by
  induction fuel with
  | zero =>
    intro n hn
    interval_cases n
    simp [natDigitsAux]
  | succ f ih =>
    intro n hn
    cases n with
    | zero => simp [natDigitsAux]
    | succ m =>
      rw [natDigitsAux]
      have hdiv : (m + 1) / 10 ≤ f := by
        have := Nat.div_lt_self (Nat.succ_pos m) (by norm_num : 1 < 10)
        omega
      rw [ih _ hdiv,
        Nat.digits_def' (by norm_num : 1 < 10) (Nat.succ_pos m)]

theorem natDigits_eq (n : Nat) : natDigits n = Nat.digits 10 n :=
  natDigitsAux_eq n n (le_refl n)

theorem natChars_ne_nil (n : Nat) : natChars n ≠ [] := by
  by_cases h : n = 0
  · subst h; decide
  · rw [natChars, if_neg h]
    intro he
    rcases List.map_eq_nil_iff.mp he with h2
    rw [List.reverse_eq_nil_iff, natDigits_eq] at h2
    exact (Nat.digits_ne_nil_iff_ne_zero.mpr h) h2

theorem natChars_mem (n : Nat) :
    ∀ c ∈ natChars n, ∃ d, d < 10 ∧ c = digitChar d := by
  intro c hc
  by_cases h : n = 0
  · subst h
    have h0 : natChars 0 = ['0'] := rfl
    rw [h0, List.mem_singleton] at hc
    exact ⟨0, by norm_num, by rw [hc]; rfl⟩
  · rw [natChars, if_neg h] at hc
    rcases List.mem_map.mp hc with ⟨d, hd, rfl⟩
    have hd2 : d ∈ Nat.digits 10 n := by
      rw [← natDigits_eq]
      exact List.mem_reverse.mp hd
    exact ⟨d, Nat.digits_lt_base (by norm_num) hd2, rfl⟩

theorem natChars_no_dot (n : Nat) : ∀ c ∈ natChars n, c ≠ '.' := by
  intro c hc
  rcases natChars_mem n c hc with ⟨d, hd, rfl⟩
  exact digitChar_ne_dot hd

theorem natChars_no_comma (n : Nat) : ∀ c ∈ natChars n, c ≠ ',' := by
  intro c hc
  rcases natChars_mem n c hc with ⟨d, hd, rfl⟩
  exact digitChar_ne_comma hd

theorem allDigits_natChars (n : Nat) : allDigits (natChars n) = true := by
  rw [allDigits, List.all_eq_true]
  intro c hc
  rcases natChars_mem n c hc with ⟨d, hd, rfl⟩
  exact digitChar_isDigit hd

theorem allDigits_map_digitChar (frac : List Nat)
    (h : ∀ d ∈ frac, d < 10) :
    allDigits (frac.map digitChar) = true := by
  rw [allDigits, List.all_eq_true]
  intro c hc
  rcases List.mem_map.mp hc with ⟨d, hd, rfl⟩
  exact digitChar_isDigit (h d hd)

theorem foldl_msd_reverse (ds : List Nat) : ∀ a : Nat,
    List.foldl (fun acc d => acc * 10 + d) a ds.reverse =
      a * 10 ^ ds.length + Nat.ofDigits 10 ds := by
  induction ds with
  | nil => intro a; simp [Nat.ofDigits]
  | cons d t ih =>
    intro a
    rw [List.reverse_cons, List.foldl_append]
    simp only [List.foldl_cons, List.foldl_nil]
    rw [ih, Nat.ofDigits_cons]
    simp only [List.length_cons, pow_succ]
    ring

theorem digitsValC_map (ds : List Nat) : ∀ a : Nat, (∀ d ∈ ds, d < 10) →
    (ds.map digitChar).foldl (fun acc c => acc * 10 + (c.toNat - 48)) a =
      ds.foldl (fun acc d => acc * 10 + d) a := by
  induction ds with
  | nil => intro a _; rfl
  | cons d t ih =>
    intro a h
    simp only [List.map_cons, List.foldl_cons]
    rw [digitChar_toNat (h d (List.mem_cons_self d t))]
    exact ih _ (fun x hx => h x (List.mem_cons_of_mem d hx))

theorem digitsValC_natChars (n : Nat) : digitsValC (natChars n) = n := by
  by_cases h : n = 0
  · subst h; decide
  · rw [natChars, if_neg h, digitsValC]
    have hlt : ∀ d ∈ (natDigits n).reverse, d < 10 := by
      intro d hd
      have : d ∈ Nat.digits 10 n := by
        rw [← natDigits_eq]
        exact List.mem_reverse.mp hd
      exact Nat.digits_lt_base (by norm_num) this
    rw [digitsValC_map _ 0 hlt, natDigits_eq,
      foldl_msd_reverse (Nat.digits 10 n) 0]
    simp [Nat.ofDigits_digits]

theorem digitsValC_map_frac (frac : List Nat) (h : ∀ d ∈ frac, d < 10) :
    digitsValC (frac.map digitChar) = msdVal frac :=
  digitsValC_map frac 0 h

theorem splitOnChar_ne_nil (sep : Char) (l : List Char) :
    splitOnChar sep l ≠ [] := by
  cases l with
  | nil => simp [splitOnChar]
  | cons c rest =>
    by_cases h : c = sep
    · simp [splitOnChar, h]
    · simp only [splitOnChar, if_neg h]
      cases hs : splitOnChar sep rest with
      | nil => simp
      | cons p ps => simp

theorem splitOnChar_no_sep (sep : Char) (l : List Char)
    (h : ∀ c ∈ l, c ≠ sep) : splitOnChar sep l = [l] := by
  induction l with
  | nil => rfl
  | cons c rest ih =>
    have hc : c ≠ sep := h c (List.mem_cons_self c rest)
    simp only [splitOnChar, if_neg hc]
    rw [ih (fun x hx => h x (List.mem_cons_of_mem c hx))]

theorem splitOnChar_append (sep : Char) (A B : List Char)
    (hA : ∀ c ∈ A, c ≠ sep) :
    splitOnChar sep (A ++ sep :: B) = A :: splitOnChar sep B := by
  induction A with
  | nil => simp [splitOnChar]
  | cons a A2 ih =>
    have ha : a ≠ sep := hA a (List.mem_cons_self a A2)
    rw [List.cons_append]
    simp only [splitOnChar, if_neg ha]
    rw [ih (fun c hc => hA c (List.mem_cons_of_mem a hc))]

theorem join_splitOnChar (sep : Char) (l : List Char) :
    (splitOnChar sep l).flatten = l.filter (fun c => c ≠ sep) := by
  induction l with
  | nil => simp [splitOnChar]
  | cons c rest ih =>
    by_cases h : c = sep
    · subst h
      simp [splitOnChar, ih, List.filter_cons]
    · simp only [splitOnChar, if_neg h]
      cases hs : splitOnChar sep rest with
      | nil => exact absurd hs (splitOnChar_ne_nil sep rest)
      | cons p ps =>
        have hj : (splitOnChar sep rest).flatten =
            rest.filter (fun c => c ≠ sep) := ih
        rw [hs] at hj
        simp only [List.flatten_cons] at hj ⊢
        rw [List.filter_cons]
        simp [h, hj]

theorem pyFloatCore_no_comma {l : List Char} {v : ℚ}
    (h : pyFloatCore l = some v) : ',' ∉ l := by
  intro hc
  have hcf : ',' ∈ l.filter (fun x => x ≠ '.') :=
    List.mem_filter.mpr ⟨hc, by decide⟩
  rw [← join_splitOnChar '.' l] at hcf
  rcases List.mem_flatten.mp hcf with ⟨part, hpart, hcp⟩
  rcases e : splitOnChar '.' l with _ | ⟨ip, rest⟩
  · exact absurd e (splitOnChar_ne_nil _ _)
  rcases rest with _ | ⟨fp, rest2⟩
  · rw [e] at hpart
    simp only [pyFloatCore, e] at h
    rcases hcond : allDigits ip && !ip.isEmpty with _ | _
    · rw [hcond] at h; simp at h
    · have hip : allDigits ip = true := (Bool.and_eq_true_iff.mp hcond).1
      have hpi : part = ip := by simpa using hpart
      subst hpi
      have := List.all_eq_true.mp hip ',' hcp
      simp at this
  · rcases rest2 with _ | ⟨x, rest3⟩
    · rw [e] at hpart
      simp only [pyFloatCore, e] at h
      rcases hcond : allDigits ip && allDigits fp &&
          !(ip.isEmpty && fp.isEmpty) with _ | _
      · rw [hcond] at h; simp at h
      · have hand := Bool.and_eq_true_iff.mp hcond
        have hip : allDigits ip = true := (Bool.and_eq_true_iff.mp hand.1).1
        have hfp : allDigits fp = true := (Bool.and_eq_true_iff.mp hand.1).2
        rcases List.mem_pair.mp hpart with hpi | hpi
        · subst hpi
          have := List.all_eq_true.mp hip ',' hcp
          simp at this
        · subst hpi
          have := List.all_eq_true.mp hfp ',' hcp
          simp at this
    · simp only [pyFloatCore, e] at h
      cases h

theorem pyFloat_no_comma {s : String} {v : ℚ} (h : pyFloat s = some v) :
    ',' ∉ s.data := by
  intro hc
  rcases e : s.data with _ | ⟨c, rest⟩
  · rw [e] at hc; cases hc
  · simp only [pyFloat, e] at h
    rw [e] at hc
    by_cases h1 : c = '-'
    · rw [if_pos h1] at h
      rcases Option.map_eq_some'.mp h with ⟨w, hw, _⟩
      rcases List.mem_cons.mp hc with hcc | hm
      · rw [h1] at hcc; cases hcc
      · exact pyFloatCore_no_comma hw hm
    · rw [if_neg h1] at h
      by_cases h2 : c = '+'
      · rw [if_pos h2] at h
        rcases List.mem_cons.mp hc with hcc | hm
        · rw [h2] at hcc; cases hcc
        · exact pyFloatCore_no_comma h hm
      · rw [if_neg h2] at h
        exact pyFloatCore_no_comma h hc

theorem filter_group3Aux : ∀ (l : List Char), (∀ c ∈ l, c ≠ ',') →
    ∀ k, (group3Aux k l).filter (fun c => c ≠ ',') = l := by
  intro l
  induction l with
  | nil =>
    intro _ k
    cases k <;> rfl
  | cons c rest ih =>
    intro hl k
    have hc : c ≠ ',' := hl c (List.mem_cons_self c rest)
    have ihr := ih (fun x hx => hl x (List.mem_cons_of_mem c hx))
    cases k with
    | zero =>
      show (',' :: c :: group3Aux 2 rest).filter (fun c => c ≠ ',') =
        c :: rest
      rw [List.filter_cons, if_neg (by decide), List.filter_cons,
        if_pos (decide_eq_true hc), ihr 2]
    | succ k2 =>
      show (c :: group3Aux k2 rest).filter (fun c => c ≠ ',') = c :: rest
      rw [List.filter_cons, if_pos (decide_eq_true hc), ihr k2]

theorem stripCommas_serializeGrouped (neg : Bool) (n : Nat)
    (frac : List Nat) (hfrac : ∀ d ∈ frac, d < 10) :
    stripCommas (serializeGrouped neg n frac) =
      serializePlain neg n frac := by
  rw [stripCommas, serializeGrouped, serializePlain]
  congr 1
  show ((if neg then ['-'] else []) ++ natCharsGrouped n ++
      (if frac = [] then [] else '.' :: frac.map digitChar)).filter
      (fun c => c ≠ ',') = _
  rw [List.filter_append, List.filter_append]
  congr 1
  congr 1
  · cases neg <;> rfl
  · rw [natCharsGrouped, List.filter_reverse]
    have hnc : ∀ c ∈ (natChars n).reverse, c ≠ ',' := by
      intro c hcm
      exact natChars_no_comma n c (List.mem_reverse.mp hcm)
    rw [filter_group3Aux (natChars n).reverse hnc 3, List.reverse_reverse]
  · by_cases hf : frac = []
    · subst hf; rfl
    · rw [if_neg hf, List.filter_cons, if_pos (by decide)]
      congr 1
      rw [List.filter_eq_self]
      intro c hcm
      rcases List.mem_map.mp hcm with ⟨d, hd, rfl⟩
      exact decide_eq_true (digitChar_ne_comma (hfrac d hd))

theorem pyFloat_mk_cons (c : Char) (rest : List Char) :
    pyFloat (String.mk (c :: rest)) =
      if c = '-' then (pyFloatCore rest).map (fun v => -v)
      else if c = '+' then pyFloatCore rest
      else pyFloatCore (c :: rest) := rfl

theorem pyFloatCore_plain (n : Nat) (frac : List Nat)
    (hfrac : ∀ d ∈ frac, d < 10) :
    pyFloatCore (natChars n ++
        (if frac = [] then [] else '.' :: frac.map digitChar)) =
      some (if frac = [] then (n : ℚ)
        else mkRat (n * 10 ^ frac.length + msdVal frac)
          (10 ^ frac.length)) := by
  by_cases hf : frac = []
  · subst hf
    simp only [reduceIte, List.append_nil]
    have he : splitOnChar '.' (natChars n) = [natChars n] :=
      splitOnChar_no_sep '.' (natChars n) (natChars_no_dot n)
    simp only [pyFloatCore, he]
    rw [if_pos ?hcnd, digitsValC_natChars]
    case hcnd =>
      rw [Bool.and_eq_true]
      refine ⟨allDigits_natChars n, ?_⟩
      have : (natChars n).isEmpty = false := by
        rcases e : natChars n with _ | _
        · exact absurd e (natChars_ne_nil n)
        · rfl
      rw [this]
      rfl
  · rw [if_neg hf, if_neg hf]
    have hfd : ∀ c ∈ frac.map digitChar, c ≠ '.' := by
      intro c hcm
      rcases List.mem_map.mp hcm with ⟨d, hd, rfl⟩
      exact digitChar_ne_dot (hfrac d hd)
    have he : splitOnChar '.' (natChars n ++ '.' :: frac.map digitChar) =
        [natChars n, frac.map digitChar] := by
      rw [splitOnChar_append '.' _ _ (natChars_no_dot n),
        splitOnChar_no_sep '.' _ hfd]
    simp only [pyFloatCore, he]
    rw [if_pos ?hcnd2]
    case hcnd2 =>
      rw [Bool.and_eq_true, Bool.and_eq_true]
      refine ⟨⟨allDigits_natChars n, allDigits_map_digitChar frac hfrac⟩, ?_⟩
      have : (natChars n).isEmpty = false := by
        rcases e : natChars n with _ | _
        · exact absurd e (natChars_ne_nil n)
        · rfl
      rw [this]
      rfl
    rw [digitsValC_natChars, digitsValC_map_frac frac hfrac,
      List.length_map]

theorem pyFloat_serializePlain (neg : Bool) (n : Nat) (frac : List Nat)
    (hfrac : ∀ d ∈ frac, d < 10) :
    pyFloat (serializePlain neg n frac) =
      some (serializedVal neg n frac) := by
  have hcore := pyFloatCore_plain n frac hfrac
  cases neg with
  | true =>
    have hshow : serializePlain true n frac =
        String.mk ('-' :: (natChars n ++
          (if frac = [] then [] else '.' :: frac.map digitChar))) := by
      rw [serializePlain]
      simp [List.cons_append]
    rw [hshow, pyFloat_mk_cons, if_pos rfl, hcore]
    simp [serializedVal]
  | false =>
    rcases ee : natChars n with _ | ⟨c, cs⟩
    · exact absurd ee (natChars_ne_nil n)
    · rcases natChars_mem n c (by rw [ee]; exact List.mem_cons_self c cs)
        with ⟨d, hd, rfl⟩
      have h1 : digitChar d ≠ '-' := digitChar_ne_dash hd
      have h2 : digitChar d ≠ '+' := digitChar_ne_plus hd
      have hshow : serializePlain false n frac =
          String.mk (digitChar d :: (cs ++
            (if frac = [] then [] else '.' :: frac.map digitChar))) := by
        rw [serializePlain, ee]
        simp [List.cons_append]
      rw [hshow, pyFloat_mk_cons, if_neg h1, if_neg h2,
        ← List.cons_append, ← ee, hcore]
      simp [serializedVal]

/-- C7: serializing a numeric amount value (sign, integer part, fraction
digits) to text with comma thousands grouping and feeding that text to the
amount parsing of `parse_transactions` yields the original value: the
direct parse is attempted first, and on its failure the parse is retried
after stripping the comma characters. -/
theorem C7_amount_roundtrip (neg : Bool) (n : Nat) (frac : List Nat)
    (hfrac : ∀ d ∈ frac, d < 10) :
    parse_amount (serializeGrouped neg n frac) =
      some (serializedVal neg n frac) := by
  have hstrip := stripCommas_serializeGrouped neg n frac hfrac
  have hplain := pyFloat_serializePlain neg n frac hfrac
  rw [parse_amount]
  cases e : pyFloat (serializeGrouped neg n frac) with
  | none => rw [hstrip, hplain]
  | some w =>
    have hnc := pyFloat_no_comma e
    have hid : stripCommas (serializeGrouped neg n frac) =
        serializeGrouped neg n frac := by
      rw [stripCommas]
      have hfe : (serializeGrouped neg n frac).data.filter
          (fun c => c ≠ ',') = (serializeGrouped neg n frac).data :=
        List.filter_eq_self.mpr
          (fun c hcl => decide_eq_true (fun hh : c = ',' => hnc (hh ▸ hcl)))
      rw [hfe]
    have hsp : serializeGrouped neg n frac = serializePlain neg n frac := by
      rw [← hid]
      exact hstrip
    rw [hsp] at e
    rw [e] at hplain
    exact hplain

theorem C7_witness :
    parse_amount "-1,234.56" = some (serializedVal true 1234 [5, 6]) := by
  have h := C7_amount_roundtrip true 1234 [5, 6] (by decide)
  have e : serializeGrouped true 1234 [5, 6] = "-1,234.56" := by decide
  rw [e] at h
  exact h

end ExpenseTracker
